import Mathlib

/-!
Verification of the genepredictor embedding pipeline
(src/genepredictor/run_dnabert.py and its service specification).

The repository's pooling code is:
  embedding_mean = torch.mean(hidden_states[0], dim=0)
  embedding_max  = torch.max(hidden_states[0], dim=0)[0]
We embed a hidden-state tensor of shape (tokens, D) as a `List (List ℚ)`
(one inner list per token row) and the dim-0 reductions as row-by-row
accumulation with pointwise `+` (then division by the row count) and
pointwise `max`, which is the semantics of torch's dim-0 reductions.
The batch dimension of `hidden_states` is a `List` of such matrices, and
`hidden_states[0]` selects batch element 0.

The Validator / PredictionService / ErrorKind wrapper described by the
specification is not part of the repository's source (only the raw
reductions and an HTTP test client are); those parts are modelled from
the specification text below, with each such definition marked
`Modelled from the spec:`.
-/

/-- Pointwise vector addition of two rows (one step of torch's dim-0 sum). -/
def vsum (a b : List ℚ) : List ℚ := List.zipWith (· + ·) a b

/-- Pointwise vector maximum of two rows (one step of torch's dim-0 max). -/
def vmax (a b : List ℚ) : List ℚ := List.zipWith max a b

/-- Embedding of `embedding_mean = torch.mean(hidden_states[0], dim=0)`
(run_dnabert.py line 60): accumulate all rows pointwise, then divide each
component by the number of rows. On a zero-row matrix torch returns a
vector of NaN; rationals have no NaN, so the zero-row case is the empty
vector here and is treated separately (see `pool`). -/
def embedding_mean (m : List (List ℚ)) : List ℚ :=
  match m with
  | [] => []
  | r :: rs => (rs.foldl vsum r).map (fun x => x / ((rs.length + 1 : ℕ) : ℚ))

/-- Embedding of `embedding_max = torch.max(hidden_states[0], dim=0)[0]`
(run_dnabert.py line 63): accumulate all rows with pointwise `max`; the
`[0]` in the source selects the values (not the indices) of torch.max. -/
def embedding_max (m : List (List ℚ)) : List ℚ :=
  match m with
  | [] => []
  | r :: rs => rs.foldl vmax r

/-! ## Service layer modelled from the specification

The repository contains only the raw reductions above and an HTTP test
client; the Validator, Pooler wrapper, and PredictionService described in
the specification live behind the `POST /predict` endpoint that is not in
the source tree. They are modelled here from the specification text. -/

/-- Modelled from the spec: the error taxonomy of section 7 of the spec
(SequenceValidator, Pooler and backend error kinds). `InvalidCharacter`
carries the offending character and its index, as the Validator contract
requires. -/
inductive ErrorKind where
  | Empty : ErrorKind
  | TooShort : ErrorKind
  | TooLong : ErrorKind
  | InvalidCharacter : Char → ℕ → ErrorKind
  | TokenizationFailure : ErrorKind
  | InferenceFailure : ErrorKind
  | EmptyMatrix : ErrorKind
  | ModelUnavailable : ErrorKind
  | Timeout : ErrorKind
deriving DecidableEq

/-- Modelled from the spec: MIN_LEN = 6 (Validator policy). -/
def MIN_LEN : ℕ := 6

/-- Whitespace characters removed by trimming. -/
def isSpaceChar (c : Char) : Bool :=
  c = ' ' || c = '\t' || c = '\n' || c = '\r'

/-- Membership in the DNA alphabet of allowed bases. -/
def isValidBase (c : Char) : Bool :=
  c = 'A' || c = 'C' || c = 'G' || c = 'T'

/-- Modelled from the spec: trimming whitespace and normalizing case to
uppercase, the Validator's ingestion step. Raw client input is embedded
as its list of characters. -/
def normalizeInput (raw : List Char) : List Char :=
  (((raw.dropWhile isSpaceChar).reverse.dropWhile isSpaceChar).reverse).map Char.toUpper

/-- First character outside the allowed alphabet, with its index. -/
def firstInvalid : List Char → Option (Char × ℕ)
  | [] => none
  | c :: cs =>
    if isValidBase c then (firstInvalid cs).map (fun p => (p.1, p.2 + 1))
    else some (c, 0)

/-- Modelled from the spec: the SequenceValidator of section 4.1, checks
in the order the contract lists them (Empty, TooShort, TooLong,
InvalidCharacter); MAX_LEN is a service-defined ceiling, kept as a
parameter since the spec fixes no value for it. -/
def validate (maxLen : ℕ) (raw : List Char) : Except ErrorKind (List Char) :=
  let s := normalizeInput raw
  if s.length = 0 then .error .Empty
  else if s.length < MIN_LEN then .error .TooShort
  else if maxLen < s.length then .error .TooLong
  else
    match firstInvalid s with
    | some p => .error (.InvalidCharacter p.1 p.2)
    | none => .ok s

/-- The two pooling strategies of the Pooler contract. -/
inductive Strategy where
  | mean : Strategy
  | max : Strategy
deriving DecidableEq

/-- Modelled from the spec: the Pooler of section 4.4. The repository has
only the raw reductions (run_dnabert.py lines 60 and 63); the Pooler
wrapper with its EmptyMatrix defensive check is the spec's service
wrapper. The non-empty cases delegate to the repository's reductions. -/
def pool (strat : Strategy) (m : List (List ℚ)) : Except ErrorKind (List ℚ) :=
  if m.isEmpty then .error .EmptyMatrix
  else
    match strat with
    | .mean => .ok (embedding_mean m)
    | .max => .ok (embedding_max m)

/-- Kinds of backend failure the EmbeddingModel can signal (section 4.3). -/
inductive ModelErrKind where
  | unavailable : ModelErrKind
  | inferenceFailed : ModelErrKind
deriving DecidableEq

/-- A backend failure: a structured kind plus the backend's raw internal
error text, which must not cross the service boundary. -/
structure BackendFailure where
  kind : ModelErrKind
  text : String
deriving DecidableEq

/-- Translation of backend failure kinds to the service error taxonomy,
propagating ModelUnavailable and InferenceFailure (spec section 4.5 step 3)
while dropping the backend's raw text. -/
def translateModelErr : ModelErrKind → ErrorKind
  | .unavailable => .ModelUnavailable
  | .inferenceFailed => .InferenceFailure

/-- Modelled from the spec: the PredictionResult of section 3 — the
normalized sequence, one embedding per pooling strategy, and the token
count diagnostic. -/
structure PredictionResult where
  sequence : List Char
  meanEmbedding : List ℚ
  maxEmbedding : List ℚ
  token_count : ℕ
deriving DecidableEq

instance {ε α : Type} [DecidableEq ε] [DecidableEq α] : DecidableEq (Except ε α) :=
  fun a b => by
    cases a <;> cases b
    case error.error x y => exact decidable_of_iff (x = y) (by simp)
    case error.ok x y => exact isFalse (by simp)
    case ok.error x y => exact isFalse (by simp)
    case ok.ok x y => exact decidable_of_iff (x = y) (by simp)

/-- Result of one `predict` request together with how many times the
Tokenizer and the EmbeddingModel were invoked while serving it. -/
structure TraceResult where
  result : Except ErrorKind PredictionResult
  tokenizerCalls : ℕ
  modelCalls : ℕ
deriving DecidableEq

/-- Modelled from the spec: the PredictionService of section 4.5 —
validate, tokenize, infer, pool both strategies, assemble the result;
a failure at any stage short-circuits without attempting later stages.
The Tokenizer and EmbeddingModel are injected dependencies; a tokenizer
failure carries the backend's raw text and is translated to
TokenizationFailure. -/
def predict (maxLen : ℕ)
    (tokenize : List Char → Except String (List ℕ))
    (infer : List ℕ → Except BackendFailure (List (List ℚ)))
    (raw : List Char) : TraceResult :=
  match validate maxLen raw with
  | .error e => ⟨.error e, 0, 0⟩
  | .ok s =>
    match tokenize s with
    | .error _ => ⟨.error .TokenizationFailure, 1, 0⟩
    | .ok toks =>
      match infer toks with
      | .error bf => ⟨.error (translateModelErr bf.kind), 1, 1⟩
      | .ok hs =>
        match pool .mean hs, pool .max hs with
        | .ok em, .ok ex => ⟨.ok ⟨s, em, ex, toks.length⟩, 1, 1⟩
        | .error e, _ => ⟨.error e, 1, 1⟩
        | .ok _, .error e => ⟨.error e, 1, 1⟩

/-- The process-wide model handle: the Tokenizer and EmbeddingModel loaded
once at startup and shared read-only across requests. -/
structure ModelHandle where
  tokenize : List Char → Except String (List ℕ)
  infer : List ℕ → Except BackendFailure (List (List ℚ))

/-- Modelled from the spec: one request against the shared service state;
the state is read, never mutated (section 3: loaded once, read-only
thereafter), so it is returned unchanged alongside the result. -/
def predictS (maxLen : ℕ) (st : ModelHandle) (raw : List Char) :
    TraceResult × ModelHandle :=
  (predict maxLen st.tokenize st.infer raw, st)

/-- Embedding of `hidden_states[0]` (run_dnabert.py lines 57 and 60): the
model output's hidden-state tensor is batch-major and pooling reads batch
element 0 only. -/
def batch_first (hs : List (List (List ℚ))) : List (List ℚ) :=
  hs.getD 0 []

/-- The pair of pooled embeddings the script computes from a model
output's batch-major hidden states (run_dnabert.py lines 57 to 64). -/
def pooled_embeddings (hs : List (List (List ℚ))) : List ℚ × List ℚ :=
  (embedding_mean (batch_first hs), embedding_max (batch_first hs))

/-- Concrete stub tokenizer used to instantiate universally quantified
claims at concrete inputs. -/
def stubTokenize : List Char → Except String (List ℕ) :=
  fun s => .ok (List.range (s.length / 3))

/-- Concrete stub model used to instantiate universally quantified claims
at concrete inputs. -/
def stubInfer : List ℕ → Except BackendFailure (List (List ℚ)) :=
  fun toks => .ok (toks.map (fun t => [(t : ℚ), 1]))

/-- Recognizes a result reporting InvalidCharacter, whatever its payload. -/
def reportsInvalidCharacter : Except ErrorKind PredictionResult → Bool
  | .error (.InvalidCharacter _ _) => true
  | _ => false

/-! ## Helper lemmas -/

/-- Component `k` of a zipWith of two rows, both long enough at `k`. -/
theorem getD_zipWith (f : ℚ → ℚ → ℚ) (a b : List ℚ) (k : ℕ)
    (ha : k < a.length) (hb : k < b.length) :
    (List.zipWith f a b).getD k 0 = f (a.getD k 0) (b.getD k 0) := by
  induction a generalizing b k with
  | nil => simp at ha
  | cons x xs ih =>
    cases b with
    | nil => simp at hb
    | cons y ys =>
      cases k with
      | zero => simp [List.getD]
      | succ k =>
        simp only [List.zipWith_cons_cons, List.getD_cons_succ]
        exact ih ys k (Nat.lt_of_succ_lt_succ ha) (Nat.lt_of_succ_lt_succ hb)

theorem vsum_getD (a b : List ℚ) (k : ℕ) (ha : k < a.length) (hb : k < b.length) :
    (vsum a b).getD k 0 = a.getD k 0 + b.getD k 0 :=
  getD_zipWith (· + ·) a b k ha hb

theorem vmax_getD (a b : List ℚ) (k : ℕ) (ha : k < a.length) (hb : k < b.length) :
    (vmax a b).getD k 0 = max (a.getD k 0) (b.getD k 0) :=
  getD_zipWith max a b k ha hb

theorem vsum_length (a b : List ℚ) (h : a.length = b.length) :
    (vsum a b).length = a.length := by
  simp [vsum, h]

theorem vmax_length (a b : List ℚ) (h : a.length = b.length) :
    (vmax a b).length = a.length := by
  simp [vmax, h]

theorem foldl_vsum_length (rs : List (List ℚ)) (r : List ℚ)
    (h : ∀ x ∈ rs, x.length = r.length) :
    (rs.foldl vsum r).length = r.length := by
  induction rs generalizing r with
  | nil => rfl
  | cons a rs ih =>
    have ha : a.length = r.length := h a (List.mem_cons_self a rs)
    have hl : (vsum r a).length = r.length := vsum_length r a ha.symm
    rw [List.foldl_cons]
    rw [ih (vsum r a) (fun x hx => (h x (List.mem_cons_of_mem a hx)).trans hl.symm)]
    exact hl

theorem foldl_vmax_length (rs : List (List ℚ)) (r : List ℚ)
    (h : ∀ x ∈ rs, x.length = r.length) :
    (rs.foldl vmax r).length = r.length := by
  induction rs generalizing r with
  | nil => rfl
  | cons a rs ih =>
    have ha : a.length = r.length := h a (List.mem_cons_self a rs)
    have hl : (vmax r a).length = r.length := vmax_length r a ha.symm
    rw [List.foldl_cons]
    rw [ih (vmax r a) (fun x hx => (h x (List.mem_cons_of_mem a hx)).trans hl.symm)]
    exact hl

/-- Component `k` of the row-accumulated sum is the sum of the rows'
`k`-th components. -/
theorem foldl_vsum_getD (rs : List (List ℚ)) (r : List ℚ) (k : ℕ)
    (h : ∀ x ∈ rs, x.length = r.length) (hk : k < r.length) :
    (rs.foldl vsum r).getD k 0 =
      r.getD k 0 + (rs.map (fun x => x.getD k 0)).sum := by
  induction rs generalizing r with
  | nil => simp
  | cons a rs ih =>
    have ha : a.length = r.length := h a (List.mem_cons_self a rs)
    have hl : (vsum r a).length = r.length := vsum_length r a ha.symm
    rw [List.foldl_cons]
    rw [ih (vsum r a) (fun x hx => (h x (List.mem_cons_of_mem a hx)).trans hl.symm)
        (hl ▸ hk)]
    rw [vsum_getD r a k hk (ha ▸ hk)]
    simp [add_assoc]

/-- Component `k` of the row-accumulated max is the fold of `max` over the
rows' `k`-th components. -/
theorem foldl_vmax_getD (rs : List (List ℚ)) (r : List ℚ) (k : ℕ)
    (h : ∀ x ∈ rs, x.length = r.length) (hk : k < r.length) :
    (rs.foldl vmax r).getD k 0 =
      (rs.map (fun x => x.getD k 0)).foldl max (r.getD k 0) := by
  induction rs generalizing r with
  | nil => simp
  | cons a rs ih =>
    have ha : a.length = r.length := h a (List.mem_cons_self a rs)
    have hl : (vmax r a).length = r.length := vmax_length r a ha.symm
    rw [List.foldl_cons]
    rw [ih (vmax r a) (fun x hx => (h x (List.mem_cons_of_mem a hx)).trans hl.symm)
        (hl ▸ hk)]
    rw [List.map_cons, List.foldl_cons, vmax_getD r a k hk (ha ▸ hk)]

theorem le_foldl_max_init (l : List ℚ) (a : ℚ) : a ≤ l.foldl max a := by
  induction l generalizing a with
  | nil => exact le_refl a
  | cons b l ih =>
    exact le_trans (le_max_left a b) (ih (max a b))

theorem le_foldl_max_of_mem (l : List ℚ) (a x : ℚ) (hx : x ∈ l) :
    x ≤ l.foldl max a := by
  induction l generalizing a with
  | nil => simp at hx
  | cons b l ih =>
    rw [List.foldl_cons]
    rcases List.mem_cons.mp hx with rfl | h
    · exact le_trans (le_max_right _ _) (le_foldl_max_init _ _)
    · exact ih (max a b) h

theorem foldl_max_mem_cons (l : List ℚ) (a : ℚ) : l.foldl max a ∈ a :: l := by
  induction l generalizing a with
  | nil => simp
  | cons b l ih =>
    rw [List.foldl_cons]
    rcases List.mem_cons.mp (ih (max a b)) with h | h
    · rcases max_choice a b with hc | hc
      · rw [h, hc]; exact List.mem_cons_self a (b :: l)
      · rw [h, hc]; exact List.mem_cons_of_mem a (List.mem_cons_self b l)
    · exact List.mem_cons_of_mem a (List.mem_cons_of_mem b h)

/-- Mean pooling computes, at each in-range dimension `k`, the sum of the
rows' `k`-th components divided by the row count. -/
theorem embedding_mean_getD (m : List (List ℚ)) (D k : ℕ)
    (hne : m ≠ []) (hrect : ∀ r ∈ m, r.length = D) (hk : k < D) :
    (embedding_mean m).getD k 0 =
      (m.map (fun r => r.getD k 0)).sum / (m.length : ℚ) := by
  cases m with
  | nil => exact absurd rfl hne
  | cons r rs =>
    have hr : r.length = D := hrect r (List.mem_cons_self r rs)
    have hall : ∀ x ∈ rs, x.length = r.length := fun x hx =>
      (hrect x (List.mem_cons_of_mem r hx)).trans hr.symm
    have hk' : k < r.length := hr ▸ hk
    have hlen : k < (rs.foldl vsum r).length := by
      rw [foldl_vsum_length rs r hall]; exact hk'
    simp only [embedding_mean]
    rw [List.getD_eq_getElem _ 0 (by simpa using hlen), List.getElem_map,
      ← List.getD_eq_getElem _ 0 hlen]
    rw [foldl_vsum_getD rs r k hall hk']
    simp [List.length_cons]

/-- Max pooling computes, at each in-range dimension `k`, a value that is
attained by some row's `k`-th component and bounds every row's `k`-th
component from above (hence it is their maximum). -/
theorem embedding_max_getD (m : List (List ℚ)) (D k : ℕ)
    (hne : m ≠ []) (hrect : ∀ r ∈ m, r.length = D) (hk : k < D) :
    (embedding_max m).getD k 0 ∈ m.map (fun r => r.getD k 0) ∧
      ∀ r ∈ m, r.getD k 0 ≤ (embedding_max m).getD k 0 := by
  cases m with
  | nil => exact absurd rfl hne
  | cons r rs =>
    have hr : r.length = D := hrect r (List.mem_cons_self r rs)
    have hall : ∀ x ∈ rs, x.length = r.length := fun x hx =>
      (hrect x (List.mem_cons_of_mem r hx)).trans hr.symm
    have hk' : k < r.length := hr ▸ hk
    simp only [embedding_max]
    rw [foldl_vmax_getD rs r k hall hk']
    constructor
    · rw [List.map_cons]
      exact foldl_max_mem_cons (rs.map (fun x => x.getD k 0)) (r.getD k 0)
    · intro x hx
      rcases List.mem_cons.mp hx with h | h
      · exact h ▸ le_foldl_max_init _ _
      · exact le_foldl_max_of_mem _ _ _ (List.mem_map_of_mem (fun x => x.getD k 0) h)

theorem embedding_mean_length (m : List (List ℚ)) (D : ℕ)
    (hne : m ≠ []) (hrect : ∀ r ∈ m, r.length = D) :
    (embedding_mean m).length = D := by
  cases m with
  | nil => exact absurd rfl hne
  | cons r rs =>
    have hr : r.length = D := hrect r (List.mem_cons_self r rs)
    have hall : ∀ x ∈ rs, x.length = r.length := fun x hx =>
      (hrect x (List.mem_cons_of_mem r hx)).trans hr.symm
    simp only [embedding_mean, List.length_map]
    rw [foldl_vsum_length rs r hall]; exact hr

theorem embedding_max_length (m : List (List ℚ)) (D : ℕ)
    (hne : m ≠ []) (hrect : ∀ r ∈ m, r.length = D) :
    (embedding_max m).length = D := by
  cases m with
  | nil => exact absurd rfl hne
  | cons r rs =>
    have hr : r.length = D := hrect r (List.mem_cons_self r rs)
    have hall : ∀ x ∈ rs, x.length = r.length := fun x hx =>
      (hrect x (List.mem_cons_of_mem r hx)).trans hr.symm
    simp only [embedding_max]
    rw [foldl_vmax_length rs r hall]; exact hr

theorem validate_empty_of (maxLen : ℕ) (raw : List Char)
    (h : (normalizeInput raw).length = 0) :
    validate maxLen raw = .error .Empty := by
  simp [validate, h]

theorem validate_tooShort_of (maxLen : ℕ) (raw : List Char)
    (h0 : (normalizeInput raw).length ≠ 0)
    (h6 : (normalizeInput raw).length < MIN_LEN) :
    validate maxLen raw = .error .TooShort := by
  simp [validate, h0, h6]

/-- When the length gates pass, the Validator reports exactly the result
of the first-invalid-character scan. -/
theorem validate_of_length_ok (maxLen : ℕ) (raw : List Char)
    (h6 : MIN_LEN ≤ (normalizeInput raw).length)
    (hmax : (normalizeInput raw).length ≤ maxLen) :
    validate maxLen raw =
      match firstInvalid (normalizeInput raw) with
      | some p => .error (.InvalidCharacter p.1 p.2)
      | none => .ok (normalizeInput raw) := by
  have h0 : (normalizeInput raw).length ≠ 0 := by
    intro h; rw [h] at h6; simp [MIN_LEN] at h6
  simp [validate, h0, Nat.not_lt.mpr h6, Nat.not_lt.mpr hmax]

/-- A failed validation short-circuits `predict` with no backend calls. -/
theorem predict_of_validate_error (maxLen : ℕ) (tok : List Char → Except String (List ℕ))
    (inf : List ℕ → Except BackendFailure (List (List ℚ))) (raw : List Char)
    (e : ErrorKind) (h : validate maxLen raw = .error e) :
    predict maxLen tok inf raw = ⟨.error e, 0, 0⟩ := by
  simp [predict, h]

/-- If some character of the list fails the alphabet test, the scan finds
a first one. -/
theorem firstInvalid_isSome (l : List Char)
    (h : ∃ c ∈ l, isValidBase c = false) : ∃ p, firstInvalid l = some p := by
  induction l with
  | nil => simp at h
  | cons a l ih =>
    by_cases ha : isValidBase a
    · rcases h with ⟨c, hc, hcv⟩
      rcases List.mem_cons.mp hc with rfl | hc'
      · rw [ha] at hcv; simp at hcv
      · rcases ih ⟨c, hc', hcv⟩ with ⟨p, hp⟩
        exact ⟨(p.1, p.2 + 1), by simp [firstInvalid, ha, hp]⟩
    · exact ⟨(a, 0), by simp [firstInvalid, ha]⟩

/-- The scan returns an in-range index of an invalid character such that
every earlier character is valid: the first occurrence. -/
theorem firstInvalid_spec (l : List Char) (c : Char) (i : ℕ)
    (h : firstInvalid l = some (c, i)) :
    i < l.length ∧ l.getD i ' ' = c ∧ isValidBase c = false ∧
      ∀ j, j < i → isValidBase (l.getD j ' ') = true := by
  induction l generalizing c i with
  | nil => simp [firstInvalid] at h
  | cons a l ih =>
    by_cases ha : isValidBase a
    · simp only [firstInvalid, ha, if_true] at h
      rcases Option.map_eq_some'.mp h with ⟨p, hp, hpe⟩
      have hc : p.1 = c := congrArg Prod.fst hpe
      have hi : p.2 + 1 = i := congrArg Prod.snd hpe
      rcases ih p.1 p.2 hp with ⟨h1, h2, h3, h4⟩
      refine ⟨?_, ?_, hc ▸ h3, ?_⟩
      · rw [← hi]; simp only [List.length_cons]; exact Nat.succ_lt_succ h1
      · rw [← hi, List.getD_cons_succ, ← hc]; exact h2
      · intro j hj
        cases j with
        | zero => rw [List.getD_cons_zero]; exact ha
        | succ j =>
          rw [← hi] at hj
          rw [List.getD_cons_succ]
          exact h4 j (Nat.lt_of_succ_lt_succ hj)
    · simp only [firstInvalid, ha, if_false, Option.some.injEq, Prod.mk.injEq] at h
      rcases h with ⟨rfl, rfl⟩
      refine ⟨by simp, by simp, by simpa using ha, ?_⟩
      intro j hj; simp at hj

/-! ## Claims -/

/-- Claim C1: for every hidden-state matrix with at least one row, mean
pooling returns a vector whose k-th component equals the arithmetic mean
of the k-th components of all rows, for every dimension k of the model
dimensionality D. -/
theorem mean_pooling_is_arithmetic_mean (m : List (List ℚ)) (D k : ℕ)
    (hne : m ≠ []) (hrect : ∀ r ∈ m, r.length = D) (hk : k < D) :
    (embedding_mean m).getD k 0 =
      (m.map (fun r => r.getD k 0)).sum / (m.length : ℚ) :=
  embedding_mean_getD m D k hne hrect hk

theorem mean_pooling_is_arithmetic_mean_witness :
    (([[5, 7], [1, 3]] : List (List ℚ)) ≠ [] ∧ (0 : ℕ) < 2) ∧
      (embedding_mean [[5, 7], [1, 3]]).getD 0 0 =
        (([[5, 7], [1, 3]] : List (List ℚ)).map (fun r => r.getD 0 0)).sum /
          (([[5, 7], [1, 3]] : List (List ℚ)).length : ℚ) :=
  ⟨⟨by decide, by decide⟩,
   mean_pooling_is_arithmetic_mean [[5, 7], [1, 3]] 2 0 (by decide) (by decide)
     (by decide)⟩

/-- Claim C2: for every hidden-state matrix with at least one row, max
pooling returns at dimension k a value attained by some row's k-th
component and bounding every row's k-th component: the maximum value,
with no index information. -/
theorem max_pooling_is_componentwise_max (m : List (List ℚ)) (D k : ℕ)
    (hne : m ≠ []) (hrect : ∀ r ∈ m, r.length = D) (hk : k < D) :
    (embedding_max m).getD k 0 ∈ m.map (fun r => r.getD k 0) ∧
      ∀ r ∈ m, r.getD k 0 ≤ (embedding_max m).getD k 0 :=
  embedding_max_getD m D k hne hrect hk

theorem max_pooling_is_componentwise_max_witness :
    (([[5, 7], [1, 3]] : List (List ℚ)) ≠ [] ∧ (0 : ℕ) < 2) ∧
      ((embedding_max [[5, 7], [1, 3]]).getD 0 0 ∈
          ([[5, 7], [1, 3]] : List (List ℚ)).map (fun r => r.getD 0 0) ∧
        ∀ r ∈ ([[5, 7], [1, 3]] : List (List ℚ)),
          r.getD 0 0 ≤ (embedding_max [[5, 7], [1, 3]]).getD 0 0) :=
  ⟨⟨by decide, by decide⟩,
   max_pooling_is_componentwise_max [[5, 7], [1, 3]] 2 0 (by decide) (by decide)
     (by decide)⟩

/-- Claim C3: on a hidden-state matrix with zero rows, pooling under
either strategy fails with `ErrorKind.EmptyMatrix`, and on any matrix
with rows it returns an embedding; the check is a defensive guard
independent of the validator. -/
theorem pool_zero_rows_empty_matrix (strat : Strategy) :
    pool strat [] = .error .EmptyMatrix ∧
      ∀ m : List (List ℚ), m ≠ [] → ∃ v, pool strat m = .ok v := by
  constructor
  · cases strat <;> rfl
  · intro m hm
    cases m with
    | nil => exact absurd rfl hm
    | cons r rs => cases strat <;> exact ⟨_, rfl⟩

theorem pool_zero_rows_empty_matrix_witness :
    pool .mean [] = .error .EmptyMatrix ∧ ∃ v, pool .mean [[1, 2]] = .ok v :=
  ⟨(pool_zero_rows_empty_matrix .mean).1,
   (pool_zero_rows_empty_matrix .mean).2 [[1, 2]] (by decide)⟩

/-- Claim C7: a request against the shared service state leaves that state
unchanged, so two successive calls of `predict` with the same sequence and
the same deterministic tokenizer and model yield identical results
(hence identical mean and max embeddings). -/
theorem predict_idempotent (maxLen : ℕ) (st : ModelHandle) (raw : List Char) :
    (predictS maxLen st raw).2 = st ∧
      (predictS maxLen ((predictS maxLen st raw).2) raw).1 =
        (predictS maxLen st raw).1 :=
  ⟨rfl, rfl⟩

/-- Claim C9: the pooled embeddings computed from a batch-major
hidden-state tensor depend only on batch element 0: any change to the
later batch elements leaves both embeddings unchanged. -/
theorem embeddings_depend_only_on_batch_head (b0 : List (List ℚ))
    (rest rest' : List (List (List ℚ))) :
    pooled_embeddings (b0 :: rest) = pooled_embeddings (b0 :: rest') := rfl

/-- Claim C10: for every non-empty hidden-state matrix whose rows have
dimensionality D, the mean and the max embeddings both have length
exactly D, whatever the number of rows. -/
theorem embedding_lengths_are_D (m : List (List ℚ)) (D : ℕ)
    (hne : m ≠ []) (hrect : ∀ r ∈ m, r.length = D) :
    (embedding_mean m).length = D ∧ (embedding_max m).length = D :=
  ⟨embedding_mean_length m D hne hrect, embedding_max_length m D hne hrect⟩

theorem embedding_lengths_are_D_witness :
    ([[5, 7, 9], [1, 3, 2]] : List (List ℚ)) ≠ [] ∧
      (embedding_mean [[5, 7, 9], [1, 3, 2]]).length = 3 ∧
      (embedding_max [[5, 7, 9], [1, 3, 2]]).length = 3 :=
  ⟨by decide, embedding_lengths_are_D [[5, 7, 9], [1, 3, 2]] 3 (by decide) (by decide)⟩

/-- Counterexample to claim C4 as stated: the empty raw input has trimmed,
normalized length 0 < 6, yet `predict` reports `Empty`, not `TooShort`. -/
theorem predict_empty_input_returns_empty_not_tooShort :
    (predict 100 stubTokenize stubInfer []).result = .error .Empty ∧
      ErrorKind.Empty ≠ ErrorKind.TooShort :=
  ⟨by decide, by decide⟩

/-- Claim C4 (amended): for every raw input whose trimmed, case-normalized
length is less than MIN_LEN = 6, `predict` performs no tokenizer call and
no model call, and returns `TooShort` when that length is positive
(`Empty` when it is zero). -/
theorem predict_short_input_no_backend_calls (maxLen : ℕ)
    (tok : List Char → Except String (List ℕ))
    (inf : List ℕ → Except BackendFailure (List (List ℚ))) (raw : List Char)
    (h : (normalizeInput raw).length < MIN_LEN) :
    (predict maxLen tok inf raw).tokenizerCalls = 0 ∧
      (predict maxLen tok inf raw).modelCalls = 0 ∧
      (0 < (normalizeInput raw).length →
        (predict maxLen tok inf raw).result = .error .TooShort) ∧
      ((normalizeInput raw).length = 0 →
        (predict maxLen tok inf raw).result = .error .Empty) := by
  by_cases h0 : (normalizeInput raw).length = 0
  · rw [predict_of_validate_error maxLen tok inf raw .Empty
      (validate_empty_of maxLen raw h0)]
    exact ⟨rfl, rfl, fun hp => absurd h0 (Nat.pos_iff_ne_zero.mp hp),
      fun _ => rfl⟩
  · rw [predict_of_validate_error maxLen tok inf raw .TooShort
      (validate_tooShort_of maxLen raw h0 h)]
    exact ⟨rfl, rfl, fun _ => rfl, fun he => absurd he h0⟩

theorem predict_short_input_no_backend_calls_witness :
    (normalizeInput ['a', 'c', 'g']).length < MIN_LEN ∧
      ((predict 100 stubTokenize stubInfer ['a', 'c', 'g']).tokenizerCalls = 0 ∧
        (predict 100 stubTokenize stubInfer ['a', 'c', 'g']).modelCalls = 0 ∧
        (0 < (normalizeInput ['a', 'c', 'g']).length →
          (predict 100 stubTokenize stubInfer ['a', 'c', 'g']).result =
            .error .TooShort) ∧
        ((normalizeInput ['a', 'c', 'g']).length = 0 →
          (predict 100 stubTokenize stubInfer ['a', 'c', 'g']).result =
            .error .Empty)) :=
  ⟨by decide,
   predict_short_input_no_backend_calls 100 stubTokenize stubInfer
     ['a', 'c', 'g'] (by decide)⟩

/-- Counterexample to claim C5 as stated: the raw input "N" contains a
character outside the alphabet, yet `predict` reports `TooShort` (the
length gate precedes the alphabet scan), not `InvalidCharacter`. -/
theorem predict_short_invalid_returns_tooShort :
    (predict 100 stubTokenize stubInfer ['N']).result = .error .TooShort ∧
      reportsInvalidCharacter
        (predict 100 stubTokenize stubInfer ['N']).result = false :=
  ⟨by decide, by decide⟩

/-- Claim C5 (amended): for every raw input whose trimmed, case-normalized
form passes the length gates and contains a character outside the
alphabet, `predict` returns `InvalidCharacter` carrying that character and
the index of its first occurrence. -/
theorem predict_invalid_character_first_index (maxLen : ℕ)
    (tok : List Char → Except String (List ℕ))
    (inf : List ℕ → Except BackendFailure (List (List ℚ))) (raw : List Char)
    (h6 : MIN_LEN ≤ (normalizeInput raw).length)
    (hmax : (normalizeInput raw).length ≤ maxLen)
    (hinv : ∃ c ∈ normalizeInput raw, isValidBase c = false) :
    ∃ c i,
      (predict maxLen tok inf raw).result = .error (.InvalidCharacter c i) ∧
        i < (normalizeInput raw).length ∧
        (normalizeInput raw).getD i ' ' = c ∧ isValidBase c = false ∧
        ∀ j, j < i → isValidBase ((normalizeInput raw).getD j ' ') = true := by
  rcases firstInvalid_isSome (normalizeInput raw) hinv with ⟨p, hp⟩
  rcases firstInvalid_spec (normalizeInput raw) p.1 p.2 hp with ⟨h1, h2, h3, h4⟩
  have hv : validate maxLen raw = .error (.InvalidCharacter p.1 p.2) := by
    rw [validate_of_length_ok maxLen raw h6 hmax, hp]
  refine ⟨p.1, p.2, ?_, h1, h2, h3, h4⟩
  rw [predict_of_validate_error maxLen tok inf raw _ hv]

theorem predict_invalid_character_first_index_witness :
    (MIN_LEN ≤ (normalizeInput ['A', 'C', 'G', 'T', 'A', 'N']).length ∧
        (normalizeInput ['A', 'C', 'G', 'T', 'A', 'N']).length ≤ 100 ∧
        ∃ c ∈ normalizeInput ['A', 'C', 'G', 'T', 'A', 'N'],
          isValidBase c = false) ∧
      ∃ c i,
        (predict 100 stubTokenize stubInfer
              ['A', 'C', 'G', 'T', 'A', 'N']).result =
            .error (.InvalidCharacter c i) ∧
          i < (normalizeInput ['A', 'C', 'G', 'T', 'A', 'N']).length ∧
          (normalizeInput ['A', 'C', 'G', 'T', 'A', 'N']).getD i ' ' = c ∧
          isValidBase c = false ∧
          ∀ j, j < i →
            isValidBase
              ((normalizeInput ['A', 'C', 'G', 'T', 'A', 'N']).getD j ' ') =
              true :=
  ⟨⟨by decide, by decide, by decide⟩,
   predict_invalid_character_first_index 100 stubTokenize stubInfer
     ['A', 'C', 'G', 'T', 'A', 'N'] (by decide) (by decide) (by decide)⟩

/-- Claim C6: pooling is computed over all rows of the hidden-state
matrix, sentinel rows included: a matrix made of a leading sentinel row, a
body, and a trailing sentinel row is mean-pooled with every row weighted
equally (denominator body length + 2) and max-pooled with both sentinel
rows participating in the maximum. -/
theorem pooling_includes_sentinel_rows (cls sep : List ℚ)
    (body : List (List ℚ)) (D k : ℕ) (hcls : cls.length = D)
    (hsep : sep.length = D) (hbody : ∀ r ∈ body, r.length = D) (hk : k < D) :
    (embedding_mean (cls :: (body ++ [sep]))).getD k 0 =
        (cls.getD k 0 + ((body.map (fun r => r.getD k 0)).sum + sep.getD k 0)) /
          ((body.length + 2 : ℕ) : ℚ) ∧
      cls.getD k 0 ≤ (embedding_max (cls :: (body ++ [sep]))).getD k 0 ∧
      sep.getD k 0 ≤ (embedding_max (cls :: (body ++ [sep]))).getD k 0 ∧
      ∀ r ∈ body,
        r.getD k 0 ≤ (embedding_max (cls :: (body ++ [sep]))).getD k 0 := by
  have hne : (cls :: (body ++ [sep])) ≠ [] := by simp
  have hrect : ∀ r ∈ cls :: (body ++ [sep]), r.length = D := by
    intro r hr
    rcases List.mem_cons.mp hr with rfl | hr'
    · exact hcls
    · rcases List.mem_append.mp hr' with h | h
      · exact hbody r h
      · rw [List.mem_singleton.mp h]; exact hsep
  have hmean := embedding_mean_getD (cls :: (body ++ [sep])) D k hne hrect hk
  have hmax := embedding_max_getD (cls :: (body ++ [sep])) D k hne hrect hk
  refine ⟨?_, ?_, ?_, ?_⟩
  · rw [hmean]
    have hlen : (cls :: (body ++ [sep])).length = body.length + 2 := by
      simp
    rw [hlen]
    congr 1
    simp [List.sum_append]
  · exact hmax.2 cls (List.mem_cons_self _ _)
  · exact hmax.2 sep (by simp)
  · intro r hr
    exact hmax.2 r (by simp [hr])

theorem pooling_includes_sentinel_rows_witness :
    (([10] : List ℚ).length = 1 ∧ ([20] : List ℚ).length = 1 ∧
        ∀ r ∈ ([[30]] : List (List ℚ)), r.length = 1) ∧
      ((embedding_mean ([10] :: ([[30]] ++ [[20]]))).getD 0 0 =
          (([10] : List ℚ).getD 0 0 +
              ((([[30]] : List (List ℚ)).map (fun r => r.getD 0 0)).sum +
                ([20] : List ℚ).getD 0 0)) /
            (((([[30]] : List (List ℚ)).length + 2 : ℕ)) : ℚ) ∧
        ([10] : List ℚ).getD 0 0 ≤
          (embedding_max ([10] :: ([[30]] ++ [[20]]))).getD 0 0 ∧
        ([20] : List ℚ).getD 0 0 ≤
          (embedding_max ([10] :: ([[30]] ++ [[20]]))).getD 0 0 ∧
        ∀ r ∈ ([[30]] : List (List ℚ)),
          r.getD 0 0 ≤ (embedding_max ([10] :: ([[30]] ++ [[20]]))).getD 0 0) :=
  ⟨⟨by decide, by decide, by decide⟩,
   pooling_includes_sentinel_rows [10] [20] [[30]] 1 0 (by decide) (by decide)
     (by decide) (by decide)⟩

/-- Claim C8: each backend failure path of `predict` surfaces exactly one
structured `ErrorKind` — tokenizer failure becomes `TokenizationFailure`,
a model failure becomes its translated kind, an empty hidden-state matrix
becomes `EmptyMatrix` — and the result never depends on the backend's raw
internal error text. -/
theorem failure_paths_single_errorkind (maxLen : ℕ) (raw s : List Char)
    (hv : validate maxLen raw = .ok s)
    (tok : List Char → Except String (List ℕ)) (toks : List ℕ)
    (htok : tok s = .ok toks)
    (inf : List ℕ → Except BackendFailure (List (List ℚ)))
    (t t' u u' : String) (bk : ModelErrKind) :
    (predict maxLen (fun _ => .error t) inf raw).result =
        .error .TokenizationFailure ∧
      predict maxLen (fun _ => .error t) inf raw =
        predict maxLen (fun _ => .error t') inf raw ∧
      (predict maxLen tok (fun _ => .error ⟨bk, u⟩) raw).result =
        .error (translateModelErr bk) ∧
      predict maxLen tok (fun _ => .error ⟨bk, u⟩) raw =
        predict maxLen tok (fun _ => .error ⟨bk, u'⟩) raw ∧
      (predict maxLen tok (fun _ => .ok []) raw).result =
        .error .EmptyMatrix := by
  refine ⟨?_, ?_, ?_, ?_, ?_⟩ <;> simp [predict, hv, htok, pool]

theorem failure_paths_single_errorkind_witness :
    (validate 100 ['a', 'c', 'g', 't', 'a', 'g'] =
        .ok ['A', 'C', 'G', 'T', 'A', 'G'] ∧
      stubTokenize ['A', 'C', 'G', 'T', 'A', 'G'] = .ok [0, 1]) ∧
      ((predict 100 (fun _ => .error "raw tok text one") stubInfer
            ['a', 'c', 'g', 't', 'a', 'g']).result =
          .error .TokenizationFailure ∧
        predict 100 (fun _ => .error "raw tok text one") stubInfer
            ['a', 'c', 'g', 't', 'a', 'g'] =
          predict 100 (fun _ => .error "raw tok text two") stubInfer
            ['a', 'c', 'g', 't', 'a', 'g'] ∧
        (predict 100 stubTokenize
              (fun _ => .error ⟨.inferenceFailed, "raw model text one"⟩)
              ['a', 'c', 'g', 't', 'a', 'g']).result =
          .error (translateModelErr .inferenceFailed) ∧
        predict 100 stubTokenize
            (fun _ => .error ⟨.inferenceFailed, "raw model text one"⟩)
            ['a', 'c', 'g', 't', 'a', 'g'] =
          predict 100 stubTokenize
            (fun _ => .error ⟨.inferenceFailed, "raw model text two"⟩)
            ['a', 'c', 'g', 't', 'a', 'g'] ∧
        (predict 100 stubTokenize (fun _ => .ok [])
            ['a', 'c', 'g', 't', 'a', 'g']).result = .error .EmptyMatrix) :=
  ⟨⟨by decide, by decide⟩,
   failure_paths_single_errorkind 100 ['a', 'c', 'g', 't', 'a', 'g']
     ['A', 'C', 'G', 'T', 'A', 'G'] (by decide) stubTokenize [0, 1]
     (by decide) stubInfer "raw tok text one" "raw tok text two"
     "raw model text one" "raw model text two" .inferenceFailed⟩
